import Mathlib

/-!
# warp-demo: the response formatter, the message handler and the configuration loader

A shallow embedding of `main.go`.  A Go string is modelled by the list of its
Unicode code points (`Str`): responses are taken to be well-formed UTF-8 text,
on which the byte-wise library functions of package `strings` (`Split`,
`TrimSpace`, `TrimPrefix`, `HasPrefix`, `HasSuffix`) agree with the
code-point-wise functions below.  The collaborators of the handler (the chat
transport, the completion provider, the log) are modelled by the answers they
give and by the trace of the calls made on them.
-/

namespace WarpDemo

/-! ## Package `strings` -/

/-- A Go string, as the list of its code points. -/
abbrev Str := List Char

/-- Go `unicode.IsSpace`: the Latin-1 spaces and the code points with the
White_Space property. -/
def isSpace (c : Char) : Bool :=
  c = '\t' || c = '\n' || c = Char.ofNat 0x0B || c = Char.ofNat 0x0C || c = '\r' || c = ' '
    || c = Char.ofNat 0x85 || c = Char.ofNat 0xA0 || c = Char.ofNat 0x1680
    || (0x2000 ≤ c.toNat && c.toNat ≤ 0x200A)
    || c = Char.ofNat 0x2028 || c = Char.ofNat 0x2029 || c = Char.ofNat 0x202F
    || c = Char.ofNat 0x205F || c = Char.ofNat 0x3000

/-- Go `strings.TrimSpace`: drop the leading and the trailing white space. -/
def TrimSpace (s : Str) : Str :=
  List.rdropWhile isSpace (List.dropWhile isSpace s)

/-- Go `strings.HasPrefix`. -/
def HasPrefix (s pre : Str) : Bool := pre.isPrefixOf s

/-- Go `strings.HasSuffix`. -/
def HasSuffix (s suf : Str) : Bool := suf.isSuffixOf s

/-- Go `strings.TrimPrefix`: `s` without the leading `pre`, or `s` itself when
`s` does not start with `pre`. -/
def TrimPrefix (s pre : Str) : Str :=
  if HasPrefix s pre then s.drop pre.length else s

/-- The scan behind `strings.Split` for a non-empty separator.  The first
argument counts the characters of a separator occurrence still to be skipped;
with nothing to skip, an occurrence of `sep` at the cursor closes the current
piece, and any other character is added to it. -/
def splitGo (sep : Str) : Nat → Str → List Str
  | _, [] => [[]]
  | skip + 1, _ :: cs => splitGo sep skip cs
  | 0, c :: cs =>
    if sep.isPrefixOf (c :: cs) then
      [] :: splitGo sep (sep.length - 1) cs
    else
      match splitGo sep 0 cs with
      | [] => [[c]]
      | p :: ps => (c :: p) :: ps

/-- Go `strings.Split(s, sep)` for a non-empty `sep`: the pieces of `s` between
the successive left-most, non-overlapping occurrences of `sep`. -/
def Split (s sep : Str) : List Str := splitGo sep 0 s

/-! ## `formatResponseHTML` -/

/-- The separator between the improved text and the issues. -/
def issuesDelim : Str := "ISSUES FOUND:".toList

/-- The label that opens the improved text. -/
def improvedLabel : Str := "IMPROVED TEXT:".toList

/-- One pass of the loop over the lines of the issues section: `result` is
the builder, `line` the current line. -/
def formatLine (result : Str) (line : Str) : Str :=
  let trimmed := TrimSpace line
  if trimmed = [] then
    result
  else if HasSuffix trimmed ":".toList && !HasPrefix trimmed "-".toList then
    result ++ ("\n<b>".toList ++ trimmed ++ "</b>\n".toList)
  else
    result ++ (trimmed ++ "\n".toList)

/-- The function `formatResponseHTML` of `main.go`. -/
def formatResponseHTML (response : Str) : Str :=
  let result : Str := []
  let parts := Split response issuesDelim
  let result :=
    if parts.length ≥ 1 then
      let improvedSection := TrimSpace (TrimPrefix (parts.getD 0 []) improvedLabel)
      let result := result ++ "<b>✅ Improved Text:</b>\n".toList
      result ++ ("<i>".toList ++ improvedSection ++ "</i>\n\n".toList)
    else result
  let result :=
    if parts.length ≥ 2 then
      let result := result ++ "<b>📋 Issues Found:</b>\n".toList
      let issuesSection := TrimSpace (parts.getD 1 [])
      let lines := Split issuesSection "\n".toList
      lines.foldl formatLine result
    else result
  result

/-! ## `loadConfig` -/

/-- An error, as its message. -/
abbrev Err := Str

/-- The struct `Config` of `main.go`. -/
structure Config where
  OpenAIAPIKey : Str
  BotToken : Str
  BotName : Str
  deriving DecidableEq

/-- The environment: each variable is unset (`none`) or set to a value. -/
abbrev Env := Str → Option Str

/-- Go `os.Getenv`: the value of the variable, empty when it is unset. -/
def Getenv (env : Env) (key : Str) : Str := (env key).getD []

/-- The function `loadConfig` of `main.go`. -/
def loadConfig (env : Env) : Except Err Config :=
  let openAIKey := Getenv env "WARP_DEMO_OPENAI_API_KEY".toList
  if openAIKey = [] then
    .error "WARP_DEMO_OPENAI_API_KEY environment variable is not set".toList
  else
    let botToken := Getenv env "WARP_DEMO_BOT_KEY".toList
    if botToken = [] then
      .error "WARP_DEMO_BOT_KEY environment variable is not set".toList
    else
      let botName := Getenv env "WARP_DEMO_BOT_NAME".toList
      let botName := if botName = [] then "English Improver Bot".toList else botName
      .ok { OpenAIAPIKey := openAIKey, BotToken := botToken, BotName := botName }

/-! ## `improveText` and `handleMessage` -/

/-- The inbound message: its text and the chat it belongs to. -/
structure Message where
  text : Str
  chatId : Int

/-- What the handler does to the outside, in the order in which it does it. -/
inductive Effect where
  /-- A line written with `log.Printf`. -/
  | log (msg : Str)
  /-- The call `b.SendChatAction(chatId, action, nil)`. -/
  | sendChatAction (chatId : Int) (action : Str)
  /-- The call `client.Chat.Completions.New` with the prompt as user message. -/
  | completion (prompt : Str)
  /-- The call `ctx.EffectiveMessage.Reply`; `parseMode` is `none` for `nil` options. -/
  | reply (text : Str) (parseMode : Option Str)
  deriving DecidableEq

/-- The answers of the collaborators: the error of the chat-action send, the
error of the completion call or the message contents of its choices, and the
error of a reply. -/
structure Collaborators where
  sendChatAction : Int → Str → Option Err
  completion : Str → Except Err (List Str)
  reply : Str → Option Str → Option Err

/-- The prompt of `improveText`: the template with the text in place of `%s`. -/
def promptFor (text : Str) : Str :=
  ("You are an English language assistant. Improve the following text to B2 level, semiformal American English.\n\nOriginal text:\n".toList
    ++ text)
    ++ ("\n\nPlease provide:\n1. The improved version of the text\n2. A categorized list of issues found:\n   - Grammar issues\n   - Spelling issues\n   - Punctuation issues\n   - Style issues\n   - Semantic issues\n\n".toList
    ++ "Format your response as:\nIMPROVED TEXT:\n[improved text here]\n\nISSUES FOUND:\nGrammar:\n- [issue 1]\n- [issue 2]\n\nSpelling:\n- [issue 1]\n\nPunctuation:\n- [issue 1]\n\nStyle:\n- [issue 1]\n\nSemantics:\n- [issue 1]\n\nIf a category has no issues, write \"None\"".toList)

/-- The function `improveText` of `main.go`: the effects and the result. -/
def improveText (c : Collaborators) (text : Str) : List Effect × Except Err Str :=
  let prompt := promptFor text
  match c.completion prompt with
  | .error err =>
    ([Effect.completion prompt], .error ("failed to call OpenAI API: ".toList ++ err))
  | .ok choices =>
    if choices.length = 0 then
      ([Effect.completion prompt], .error "no response from OpenAI".toList)
    else
      ([Effect.completion prompt], .ok (choices.getD 0 []))

/-- The fixed apology of the handler. -/
def apology : Str := "❌ Sorry, I encountered an error processing your message.".toList

/-- The handler returned by `handleMessage` of `main.go`, run on one message:
the effects in order and the returned error (`none` for `nil`). -/
def handleMessage (_cfg : Config) (c : Collaborators) (msg : Message) :
    List Effect × Option Err :=
  if msg.text = [] then
    ([], none)
  else
    let text := msg.text
    if HasPrefix text "/".toList then
      ([], none)
    else
      let trace := [Effect.log ("Received message: ".toList ++ text)]
      let err := c.sendChatAction msg.chatId "typing".toList
      let trace := trace ++ [Effect.sendChatAction msg.chatId "typing".toList]
      let trace :=
        match err with
        | some e => trace ++ [Effect.log ("Failed to send typing action: ".toList ++ e)]
        | none => trace
      let (effects, result) := improveText c text
      let trace := trace ++ effects
      match result with
      | .error err =>
        let trace := trace ++ [Effect.log ("Error improving text: ".toList ++ err)]
        let sendErr := c.reply apology none
        let trace := trace ++ [Effect.reply apology none]
        let trace :=
          match sendErr with
          | some e => trace ++ [Effect.log ("Failed to send error message: ".toList ++ e)]
          | none => trace
        (trace, some err)
      | .ok improved =>
        let formattedResponse := formatResponseHTML improved
        let err := c.reply formattedResponse (some "HTML".toList)
        let trace := trace ++ [Effect.reply formattedResponse (some "HTML".toList)]
        match err with
        | some e => (trace ++ [Effect.log ("Failed to send response: ".toList ++ e)], some e)
        | none =>
          (trace ++ [Effect.log "Successfully processed and replied to message".toList], none)

/-! ## The vocabulary of the statements -/

/-- The newline separator. -/
def nl : Str := "\n".toList

/-- An occurrence of the separator in `x ++ sep ++ rest` that starts in a
non-empty `x` lies in `x`: the separator does not overlap a copy of itself. -/
def borderFree (sep : Str) : Prop :=
  ∀ x rest : Str, x ≠ [] → sep <+: x ++ (sep ++ rest) → sep <:+: x

/-- The rendering of a block whose first line is continued from `pre`. -/
def renderFrom (pre s : Str) : Str :=
  match Split s nl with
  | [] => formatLine [] pre
  | p :: ps => formatLine [] (pre ++ p) ++ ps.flatMap (formatLine [])

/-- The improved-text block written for the first piece of the response. -/
def improvedBlock (first : Str) : Str :=
  "<b>✅ Improved Text:</b>\n".toList
    ++ ("<i>".toList ++ TrimSpace (TrimPrefix first improvedLabel) ++ "</i>\n\n".toList)

/-- The rendering of one line of the issues block, in the words of the
specification: nothing for a blank line, a bold label for a category header
(the trimmed line ends with `:` and does not begin with `-`), and the
trimmed line itself for an item. -/
def specIssueLine (line : Str) : Str :=
  let t := TrimSpace line
  if t = [] then []
  else if t.getLast? = some ':' ∧ t.head? ≠ some '-' then
    "\n<b>".toList ++ t ++ "</b>\n".toList
  else t ++ "\n".toList

/-- The tags the renderer itself writes. -/
def fixedTags : List Str := ["<b>".toList, "</b>".toList, "<i>".toList, "</i>".toList]

/-- Every `<` of the string opens one of the fixed tags. -/
def anglesAreTags : Str → Bool
  | [] => true
  | c :: cs => (c != '<' || fixedTags.any (fun t => t.isPrefixOf (c :: cs))) && anglesAreTags cs

/-- The content lines of an issues block: its lines, trimmed, without the
blank ones. -/
def contentLines (b : Str) : List Str :=
  ((Split b "\n".toList).map TrimSpace).filter (fun t => !t.isEmpty)

/-- What is written for one content line: a bold label for a category header
(the line ends with `:` and does not begin with `-`), the line itself for an
item. -/
def renderContentLine (t : Str) : Str :=
  if t.getLast? = some ':' ∧ t.head? ≠ some '-' then
    "\n<b>".toList ++ t ++ "</b>\n".toList
  else t ++ "\n".toList

/-- A category of the issues block: its header line and its item lines. -/
structure Category where
  header : Str
  items : List Str

/-- The lines of a category as the response has them. -/
def Category.lines (c : Category) : List Str := c.header :: c.items

/-- A category header: a non-empty line that ends with `:` and does not begin
with `-`. -/
def headerLine (t : Str) : Prop := t ≠ [] ∧ t.getLast? = some ':' ∧ t.head? ≠ some '-'

/-- An item: a non-empty line that is not a header. -/
def itemLine (t : Str) : Prop := t ≠ [] ∧ ¬ (t.getLast? = some ':' ∧ t.head? ≠ some '-')

instance (t : Str) : Decidable (headerLine t) := by unfold headerLine; infer_instance

instance (t : Str) : Decidable (itemLine t) := by unfold itemLine; infer_instance

/-- A category whose header is a header line and whose items are item lines. -/
def Category.wellFormed (c : Category) : Prop := headerLine c.header ∧ ∀ i ∈ c.items, itemLine i

instance (c : Category) : Decidable c.wellFormed := by unfold Category.wellFormed; infer_instance

/-- The section written for a category: the bold label, then the items, one
on each line. -/
def renderCategory (c : Category) : Str :=
  "\n<b>".toList ++ c.header ++ "</b>\n".toList ++ c.items.flatMap (fun i => i ++ "\n".toList)

/-- The names of the five recognized categories. -/
def categoryNames : List Str :=
  ["Grammar".toList, "Spelling".toList, "Punctuation".toList, "Style".toList, "Semantics".toList]

/-- The no-issues sentinel. -/
def noneSentinel : Str := "None".toList

/-- The fixed text of the output, cut at the `>`, `<` and newline characters
that border the text taken from the response. -/
def fixedPieces : List Str :=
  ["<b>✅ Improved Text:</b>\n<i".toList, "/i>\n\n".toList,
   "/i>\n\n<b>📋 Issues Found:</b>".toList, "\n<b".toList, "/b>".toList]

/-- The variable is unset or set to the empty string. -/
def unsetOrEmpty (env : Env) (key : Str) : Prop := env key = none ∨ env key = some []

instance (env : Env) (key : Str) : Decidable (unsetOrEmpty env key) := by
  unfold unsetOrEmpty; infer_instance

/-- The effect is a call of a collaborator, not a log line. -/
def isCall : Effect → Bool
  | Effect.log _ => false
  | _ => true

/-! ## The inputs of the examples -/

/-- The improved-text segment of the scenario-1 completion. -/
def scenario1Improved : Str := "IMPROVED TEXT:\nShe doesn't like going to school.\n\n".toList

/-- The issues segment of the scenario-1 completion. -/
def scenario1Issues : Str :=
  "\nGrammar:\n- \"dont\" should be \"doesn't\"\n- \"like go\" should be \"like going\"\nSpelling:\nNone".toList

/-- The rendering of the scenario-1 completion. -/
def scenario1Output : Str :=
  "<b>✅ Improved Text:</b>\n<i>She doesn't like going to school.</i>\n\n<b>📋 Issues Found:</b>\n\n<b>Grammar:</b>\n- \"dont\" should be \"doesn't\"\n- \"like go\" should be \"like going\"\n\n<b>Spelling:</b>\nNone\n".toList

/-- A completion with an item that holds `<` and `&`. -/
def reservedResponse : Str :=
  "IMPROVED TEXT:\nIf a < b, stop.\n\nISSUES FOUND:\nGrammar:\n- write a < b & c".toList

/-- A completion that lists the five categories with Spelling first. -/
def permutedResponse : Str :=
  "IMPROVED TEXT:\nok\n\nISSUES FOUND:\nSpelling:\n- s1\nGrammar:\n- g1\n- g2\nPunctuation:\nNone\nStyle:\n- t1\nSemantics:\n- m1".toList

/-- The issues segment of `permutedResponse`. -/
def permutedIssues : Str :=
  "\nSpelling:\n- s1\nGrammar:\n- g1\n- g2\nPunctuation:\nNone\nStyle:\n- t1\nSemantics:\n- m1".toList

/-- The categories of the scenario-1 completion. -/
def scenario1Categories : List Category :=
  [⟨"Grammar:".toList,
      ["- \"dont\" should be \"doesn't\"".toList, "- \"like go\" should be \"like going\"".toList]⟩,
   ⟨"Spelling:".toList, ["None".toList]⟩]

/-- A completion in the layout of the prompt, with the Style category only. -/
def styleOnlyResponse : Str :=
  "IMPROVED TEXT:\nok\n\nISSUES FOUND:\n\nStyle:\n  - wordy\n".toList

/-- The five categories, Spelling first. -/
def permutedCategories : List Category :=
  [⟨"Spelling:".toList, ["- s1".toList]⟩,
   ⟨"Grammar:".toList, ["- g1".toList, "- g2".toList]⟩,
   ⟨"Punctuation:".toList, ["None".toList]⟩,
   ⟨"Style:".toList, ["- t1".toList]⟩,
   ⟨"Semantics:".toList, ["- m1".toList]⟩]

/-- A completion that has the Grammar category only. -/
def sparseResponse : Str := "IMPROVED TEXT:\nok\n\nISSUES FOUND:\nGrammar:\n- x".toList

/-- Collaborators that all fail. -/
def failingCollaborators : Collaborators :=
  ⟨fun _ _ => some "down".toList, fun _ => .error "timeout".toList,
    fun _ _ => some "blocked".toList⟩

/-! ## Facts about `Split` -/

theorem splitGo_skip (sep : Str) (pre rest : Str) :
    splitGo sep pre.length (pre ++ rest) = splitGo sep 0 rest := by
  induction pre with
  | nil => rfl
  | cons c cs ih => simpa [splitGo] using ih

/-- Without an occurrence of the separator the string is the only piece. -/
theorem splitGo_of_absent (sep s : Str) (h : ¬ sep <:+: s) :
    splitGo sep 0 s = [s] := by
  induction s with
  | nil => rfl
  | cons c cs ih =>
    have hp : sep.isPrefixOf (c :: cs) = false := by
      cases hb : sep.isPrefixOf (c :: cs) with
      | false => rfl
      | true => exact absurd (List.isPrefixOf_iff_prefix.mp hb).isInfix h
    have hcs : ¬ sep <:+: cs := fun hi => h (List.infix_cons hi)
    simp [splitGo, hp, ih hcs]

/-- The first piece ends at the first occurrence of the separator. -/
theorem splitGo_append_sep (sep : Str) (hne : sep ≠ []) (hb : borderFree sep)
    (a rest : Str) (h : ¬ sep <:+: a) :
    splitGo sep 0 (a ++ (sep ++ rest)) = a :: splitGo sep 0 rest := by
  induction a with
  | nil =>
    obtain ⟨d, ds, rfl⟩ := List.exists_cons_of_ne_nil hne
    have hp : (d :: ds).isPrefixOf (d :: (ds ++ rest)) = true :=
      List.isPrefixOf_iff_prefix.mpr ⟨rest, rfl⟩
    have := splitGo_skip (d :: ds) ds rest
    show splitGo (d :: ds) 0 (d :: (ds ++ rest)) = [] :: splitGo (d :: ds) 0 rest
    rw [splitGo, if_pos hp]
    simp only [List.length_cons, Nat.add_sub_cancel]
    rw [this]
  | cons c cs ih =>
    have hp : sep.isPrefixOf (c :: cs ++ (sep ++ rest)) = false := by
      cases hb2 : sep.isPrefixOf (c :: cs ++ (sep ++ rest)) with
      | false => rfl
      | true =>
        exact absurd (hb (c :: cs) rest (by simp) (List.isPrefixOf_iff_prefix.mp hb2)) h
    have hcs : ¬ sep <:+: cs := fun hi => h (List.infix_cons hi)
    simp only [List.cons_append] at hp ⊢
    simp [splitGo, hp, ih hcs]

theorem splitGo_ne_nil (sep : Str) (k : Nat) (s : Str) : splitGo sep k s ≠ [] := by
  induction s generalizing k with
  | nil => simp [splitGo]
  | cons c cs ih =>
    cases k with
    | succ k => simpa [splitGo] using ih k
    | zero =>
      rw [splitGo]
      split
      · simp
      · split <;> simp

theorem splitGo_pieces (sep : Str) (s : Str) :
    ∀ k, (∀ q ∈ splitGo sep k s, q <:+: s)
      ∧ (k = 0 → ∃ p ps, splitGo sep 0 s = p :: ps ∧ p <+: s) := by
  induction s with
  | nil =>
    intro k
    refine ⟨?_, fun _ => ⟨[], [], by simp [splitGo], List.nil_prefix⟩⟩
    intro q hq
    simp [splitGo] at hq
    subst hq
    exact List.nil_infix
  | cons c cs ih =>
    intro k
    cases k with
    | succ k =>
      refine ⟨?_, fun h => absurd h (by simp)⟩
      intro q hq
      rw [splitGo] at hq
      exact List.infix_cons ((ih k).1 q hq)
    | zero =>
      by_cases hp : sep.isPrefixOf (c :: cs) = true
      · have e : splitGo sep 0 (c :: cs) = [] :: splitGo sep (sep.length - 1) cs := by
          rw [splitGo, if_pos hp]
        refine ⟨?_, fun _ => ⟨[], _, e, List.nil_prefix⟩⟩
        intro q hq
        rw [e] at hq
        rcases List.mem_cons.mp hq with rfl | hq
        · exact List.nil_infix
        · exact List.infix_cons ((ih _).1 q hq)
      · obtain ⟨p, ps, hps, hpre⟩ := (ih 0).2 rfl
        have e : splitGo sep 0 (c :: cs) = (c :: p) :: ps := by
          rw [splitGo, if_neg hp, hps]
        have hcp : c :: p <+: c :: cs := by
          obtain ⟨t, ht⟩ := hpre
          exact ⟨t, by simp [← ht]⟩
        refine ⟨?_, fun _ => ⟨c :: p, ps, e, hcp⟩⟩
        intro q hq
        rw [e] at hq
        rcases List.mem_cons.mp hq with rfl | hq
        · exact hcp.isInfix
        · exact List.infix_cons ((ih 0).1 q (by rw [hps]; exact List.mem_cons_of_mem _ hq))

/-- Every piece of a split is a part of the string. -/
theorem Split_mem_within (s sep q : Str) (h : q ∈ Split s sep) : q <:+: s :=
  (splitGo_pieces sep s 0).1 q h

theorem issuesDelim_length : issuesDelim.length = 13 := by decide

theorem issuesDelim_no_border :
    ∀ j, j < 13 → 0 < j → issuesDelim.drop j ≠ issuesDelim.take (13 - j) := by decide

/-- No proper suffix of `ISSUES FOUND:` is a prefix of it: the colon occurs
only at its end. -/
theorem borderFree_issuesDelim : borderFree issuesDelim := by
  intro x rest hx hpre
  by_cases hlen : issuesDelim.length ≤ x.length
  · exact (List.prefix_of_prefix_length_le hpre (List.prefix_append x _) hlen).isInfix
  · exfalso
    have hxD : x <+: issuesDelim :=
      List.prefix_of_prefix_length_le (List.prefix_append x _) hpre (by omega)
    obtain ⟨y, hy⟩ := hxD
    have h2 : x ++ y <+: x ++ (issuesDelim ++ rest) := by rw [hy]; exact hpre
    have h3 : y <+: issuesDelim ++ rest := (List.prefix_append_right_inj x).mp h2
    have hl : x.length + y.length = 13 := by
      rw [← List.length_append, hy]; exact issuesDelim_length
    have h4 : y <+: issuesDelim :=
      List.prefix_of_prefix_length_le h3 (List.prefix_append _ rest)
        (by rw [issuesDelim_length]; omega)
    have h5 : y = issuesDelim.take y.length := List.prefix_iff_eq_take.mp h4
    have h6 : y = issuesDelim.drop x.length := by rw [← hy]; simp
    have hxpos : 0 < x.length := List.length_pos.mpr hx
    have hy13 : y.length = 13 - x.length := by omega
    refine issuesDelim_no_border x.length (by rw [issuesDelim_length] at hlen; omega) hxpos ?_
    rw [← h6, ← hy13]; exact h5

theorem issuesDelim_ne_nil : issuesDelim ≠ [] := by decide

/-- The two pieces of a response with one delimiter. -/
theorem Split_issuesDelim_two (a b : Str) (ha : ¬ issuesDelim <:+: a)
    (hb : ¬ issuesDelim <:+: b) :
    Split (a ++ issuesDelim ++ b) issuesDelim = [a, b] := by
  unfold Split
  rw [List.append_assoc, splitGo_append_sep _ issuesDelim_ne_nil borderFree_issuesDelim a b ha,
    splitGo_of_absent _ b hb]

/-- The first two pieces of a response with a second delimiter. -/
theorem Split_issuesDelim_three (a b c : Str) (ha : ¬ issuesDelim <:+: a)
    (hb : ¬ issuesDelim <:+: b) :
    Split (a ++ issuesDelim ++ b ++ issuesDelim ++ c) issuesDelim
      = a :: b :: Split c issuesDelim := by
  unfold Split
  have e : a ++ issuesDelim ++ b ++ issuesDelim ++ c
      = a ++ (issuesDelim ++ (b ++ (issuesDelim ++ c))) := by simp
  rw [e, splitGo_append_sep _ issuesDelim_ne_nil borderFree_issuesDelim a _ ha,
    splitGo_append_sep _ issuesDelim_ne_nil borderFree_issuesDelim b c hb]

theorem Split_nl_cons_nl (s : Str) : Split ('\n' :: s) nl = [] :: Split s nl := by
  simp [Split, splitGo, nl]

theorem Split_nl_cons_other (c : Char) (s : Str) (h : c ≠ '\n') :
    ∃ p ps, Split s nl = p :: ps ∧ Split (c :: s) nl = (c :: p) :: ps := by
  obtain ⟨p, ps, hps⟩ := List.exists_cons_of_ne_nil (splitGo_ne_nil nl 0 s)
  refine ⟨p, ps, hps, ?_⟩
  have hp : nl.isPrefixOf (c :: s) = false := by
    simp [nl, List.isPrefixOf, Ne.symm h]
  simp only [Split, splitGo, hp]
  rw [hps]
  simp

/-! ## Facts about `TrimSpace`, `TrimPrefix` and the line loop -/

theorem TrimSpace_cons_space (c : Char) (p : Str) (h : isSpace c = true) :
    TrimSpace (c :: p) = TrimSpace p := by
  simp [TrimSpace, List.dropWhile_cons, h]

theorem TrimSpace_concat_space (c : Char) (p : Str) (h : isSpace c = true) :
    TrimSpace (p ++ [c]) = TrimSpace p := by
  unfold TrimSpace
  rw [List.dropWhile_append]
  split
  · next he =>
    have : List.dropWhile isSpace p = [] := by simpa using he
    simp [this, List.dropWhile_cons, h]
  · rw [List.rdropWhile_concat_pos _ _ _ h]

theorem TrimSpace_within (s : Str) : TrimSpace s <:+: s :=
  (List.rdropWhile_prefix isSpace _).isInfix.trans (List.dropWhile_suffix isSpace).isInfix

theorem TrimPrefix_within (s pre : Str) : TrimPrefix s pre <:+: s := by
  unfold TrimPrefix
  split
  · exact (List.drop_suffix _ _).isInfix
  · exact List.infix_refl _

theorem HasSuffix_colon (t : Str) : HasSuffix t ":".toList = true ↔ t.getLast? = some ':' := by
  unfold HasSuffix
  rw [List.isSuffixOf_iff_suffix, List.getLast?_eq_some_iff]
  constructor
  · rintro ⟨u, hu⟩
    exact ⟨u, hu.symm⟩
  · rintro ⟨u, hu⟩
    exact ⟨u, hu.symm⟩

theorem HasPrefix_dash (t : Str) : HasPrefix t "-".toList = true ↔ t.head? = some '-' := by
  unfold HasPrefix
  rw [List.isPrefixOf_iff_prefix, List.head?_eq_some_iff]
  constructor
  · rintro ⟨u, hu⟩
    exact ⟨u, hu.symm⟩
  · rintro ⟨u, hu⟩
    exact ⟨u, hu.symm⟩

theorem isHeader_iff (t : Str) :
    (HasSuffix t ":".toList && !HasPrefix t "-".toList) = true
      ↔ (t.getLast? = some ':' ∧ t.head? ≠ some '-') := by
  rw [Bool.and_eq_true, HasSuffix_colon, Bool.not_eq_true', ← Bool.not_eq_true, HasPrefix_dash]

theorem formatLine_nil_nil : formatLine [] [] = [] := by decide

theorem formatLine_cons_space (c : Char) (p : Str) (h : isSpace c = true) :
    formatLine [] (c :: p) = formatLine [] p := by
  simp only [formatLine, TrimSpace_cons_space c p h]

theorem formatLine_concat_space (c : Char) (p : Str) (h : isSpace c = true) :
    formatLine [] (p ++ [c]) = formatLine [] p := by
  simp only [formatLine, TrimSpace_concat_space c p h]

theorem formatLine_append (res line : Str) :
    formatLine res line = res ++ formatLine [] line := by
  simp only [formatLine]
  split
  · simp
  · split <;> simp

theorem foldl_formatLine (ls : List Str) (res : Str) :
    ls.foldl formatLine res = res ++ ls.flatMap (formatLine []) := by
  induction ls generalizing res with
  | nil => simp
  | cons l ls ih => rw [List.foldl_cons, ih, formatLine_append res l]; simp

theorem formatLine_eq_spec (line : Str) : formatLine [] line = specIssueLine line := by
  simp only [formatLine, specIssueLine]
  by_cases h1 : TrimSpace line = []
  · rw [if_pos h1, if_pos h1]
  · rw [if_neg h1, if_neg h1]
    by_cases h2 : (TrimSpace line).getLast? = some ':' ∧ (TrimSpace line).head? ≠ some '-'
    · rw [if_pos h2, if_pos ((isHeader_iff _).mpr h2)]; rfl
    · rw [if_neg h2, if_neg (fun h => h2 ((isHeader_iff _).mp h))]; rfl

theorem formatLine_cases (l : Str) :
    formatLine [] l = []
      ∨ formatLine [] l = "\n<b".toList ++ '>' :: (TrimSpace l ++ '<' :: ("/b>".toList ++ ['\n']))
      ∨ formatLine [] l = TrimSpace l ++ ['\n'] := by
  simp only [formatLine]
  split
  · exact Or.inl rfl
  · split
    · right; left; simp
    · right; right; simp

theorem TrimSpace_within_formatLine (line : Str) (h : TrimSpace line ≠ []) :
    TrimSpace line <:+: formatLine [] line := by
  simp only [formatLine, if_neg h]
  split
  · exact ⟨"\n<b>".toList, "</b>\n".toList, by simp⟩
  · exact ⟨[], "\n".toList, by simp⟩

theorem renderFrom_nil (pre : Str) : renderFrom pre [] = formatLine [] pre := by
  simp [renderFrom, Split, splitGo]

theorem renderFrom_cons_nl (pre s : Str) :
    renderFrom pre ('\n' :: s) = formatLine [] pre ++ renderFrom [] s := by
  obtain ⟨p, ps, hps⟩ := List.exists_cons_of_ne_nil (splitGo_ne_nil nl 0 s)
  have hps2 : Split s nl = p :: ps := hps
  simp [renderFrom, Split_nl_cons_nl, hps2]

theorem renderFrom_cons_other (pre : Str) (c : Char) (s : Str) (h : c ≠ '\n') :
    renderFrom pre (c :: s) = renderFrom (pre ++ [c]) s := by
  obtain ⟨p, ps, h1, h2⟩ := Split_nl_cons_other c s h
  simp [renderFrom, h1, h2]

theorem renderFrom_concat_space (c : Char) (h : isSpace c = true) (s pre : Str) :
    renderFrom pre (s ++ [c]) = renderFrom pre s := by
  induction s generalizing pre with
  | nil =>
    by_cases hc : c = '\n'
    · subst hc
      simp [renderFrom_cons_nl, renderFrom_nil, formatLine_nil_nil]
    · simp [renderFrom_cons_other _ _ _ hc, renderFrom_nil, formatLine_concat_space c pre h]
  | cons x xs ih =>
    by_cases hx : x = '\n'
    · subst hx
      simp [renderFrom_cons_nl, ih]
    · simp [renderFrom_cons_other _ _ _ hx, ih]

theorem renderFrom_cons_space (c : Char) (h : isSpace c = true) (s : Str) :
    renderFrom [] (c :: s) = renderFrom [] s := by
  by_cases hc : c = '\n'
  · subst hc
    simp [renderFrom_cons_nl, formatLine_nil_nil]
  · obtain ⟨p, ps, h1, h2⟩ := Split_nl_cons_other c s hc
    simp [renderFrom, h1, h2, formatLine_cons_space c p h]

theorem renderFrom_dropWhile (s : Str) :
    renderFrom [] (List.dropWhile isSpace s) = renderFrom [] s := by
  induction s with
  | nil => rfl
  | cons c cs ih =>
    by_cases h : isSpace c = true
    · rw [List.dropWhile_cons_of_pos h, ih, renderFrom_cons_space c h]
    · rw [List.dropWhile_cons_of_neg h]

theorem renderFrom_rdropWhile (s : Str) :
    renderFrom [] (List.rdropWhile isSpace s) = renderFrom [] s := by
  induction s using List.reverseRecOn with
  | nil => rfl
  | append_singleton l c ih =>
    by_cases h : isSpace c = true
    · rw [List.rdropWhile_concat_pos _ _ _ h, ih, renderFrom_concat_space c h]
    · rw [List.rdropWhile_concat_neg _ _ _ h]

/-- Trimming the issues section does not change what its lines render to. -/
theorem renderFrom_TrimSpace (s : Str) :
    renderFrom [] (TrimSpace s) = renderFrom [] s := by
  unfold TrimSpace
  rw [renderFrom_rdropWhile, renderFrom_dropWhile]

theorem renderFrom_nil_eq (s : Str) :
    renderFrom [] s = (Split s nl).flatMap (formatLine []) := by
  obtain ⟨p, ps, hps⟩ := List.exists_cons_of_ne_nil (splitGo_ne_nil nl 0 s)
  have hps2 : Split s nl = p :: ps := hps
  simp [renderFrom, hps2]

/-! ## The shape of the output -/

/-- The output for a response whose split has at least two pieces. -/
theorem formatResponseHTML_of_parts (r a b : Str) (rest : List Str)
    (h : Split r issuesDelim = a :: b :: rest) :
    formatResponseHTML r
      = improvedBlock a ++ "<b>📋 Issues Found:</b>\n".toList
          ++ (Split b nl).flatMap (formatLine []) := by
  have e := renderFrom_TrimSpace b
  rw [renderFrom_nil_eq, renderFrom_nil_eq] at e
  simp only [formatResponseHTML, h, improvedBlock, foldl_formatLine]
  simp only [List.length_cons, List.getD_cons_zero, List.getD_cons_succ]
  have e2 : Split (TrimSpace b) "\n".toList = Split (TrimSpace b) nl := rfl
  rw [e2, e]
  simp

/-- The output for a response whose split has a single piece. -/
theorem formatResponseHTML_of_single (r a : Str) (h : Split r issuesDelim = [a]) :
    formatResponseHTML r = improvedBlock a := by
  simp [formatResponseHTML, h, improvedBlock]

/-- The lines of a block render as its content lines do. -/
theorem flatMap_specIssueLine (ls : List Str) :
    ls.flatMap specIssueLine
      = ((ls.map TrimSpace).filter (fun t => !t.isEmpty)).flatMap renderContentLine := by
  induction ls with
  | nil => rfl
  | cons l ls ih =>
    rw [List.flatMap_cons, ih, List.map_cons]
    by_cases h : TrimSpace l = []
    · have e : specIssueLine l = [] := by simp only [specIssueLine, if_pos h]
      rw [e, List.filter_cons_of_neg (by simp [h])]
      rfl
    · have e : specIssueLine l = renderContentLine (TrimSpace l) := by
        simp only [specIssueLine, if_neg h, renderContentLine]
      rw [e, List.filter_cons_of_pos (by simp [h]), List.flatMap_cons]

theorem renderContentLine_header (t : Str) (h : headerLine t) :
    renderContentLine t = "\n<b>".toList ++ t ++ "</b>\n".toList := by
  simp only [renderContentLine, if_pos h.2]

theorem renderContentLine_item (t : Str) (h : itemLine t) :
    renderContentLine t = t ++ "\n".toList := by
  simp only [renderContentLine, if_neg h.2]

theorem renderContentLine_category (c : Category) (h : c.wellFormed) :
    c.lines.flatMap renderContentLine = renderCategory c := by
  obtain ⟨hh, hi⟩ := h
  have e : c.items.flatMap renderContentLine = c.items.flatMap (fun i => i ++ "\n".toList) := by
    have : ∀ (is : List Str), (∀ i ∈ is, itemLine i) →
        is.flatMap renderContentLine = is.flatMap (fun i => i ++ "\n".toList) := by
      intro is
      induction is with
      | nil => intro _; rfl
      | cons i is ih =>
        intro hall
        simp only [List.flatMap_cons]
        rw [renderContentLine_item i (hall i (by simp)),
          ih (fun j hj => hall j (List.mem_cons_of_mem _ hj))]
    exact this c.items hi
  simp only [Category.lines, List.flatMap_cons, renderCategory, renderContentLine_header _ hh, e]

theorem renderContentLine_categories (cs : List Category) (h : ∀ c ∈ cs, c.wellFormed) :
    (cs.flatMap Category.lines).flatMap renderContentLine = cs.flatMap renderCategory := by
  induction cs with
  | nil => rfl
  | cons c cs ih =>
    simp only [List.flatMap_cons, List.flatMap_append]
    rw [renderContentLine_category c (h c (by simp)),
      ih (fun d hd => h d (List.mem_cons_of_mem _ hd))]

/-- The issues part of the output, by content lines. -/
theorem formatLine_contentLines (b : Str) :
    (Split b nl).flatMap (formatLine []) = (contentLines b).flatMap renderContentLine := by
  have hf : formatLine [] = specIssueLine := funext formatLine_eq_spec
  rw [hf, flatMap_specIssueLine]
  rfl

/-- A string that holds the separator has a first occurrence of it. -/
theorem first_occurrence (sep : Str) (hne : sep ≠ []) (s : Str) (h : sep <:+: s) :
    ∃ a rest, s = a ++ sep ++ rest ∧ ¬ sep <:+: a := by
  induction s with
  | nil =>
    exact absurd (List.eq_nil_of_infix_nil h) hne
  | cons c cs ih =>
    by_cases hp : sep <+: c :: cs
    · obtain ⟨t, ht⟩ := hp
      exact ⟨[], t, by simp [ht], fun hi => hne (List.eq_nil_of_infix_nil hi)⟩
    · rcases List.infix_cons_iff.mp h with h1 | h1
      · exact absurd h1 hp
      · obtain ⟨a, rest, hs, ha⟩ := ih h1
        refine ⟨c :: a, rest, by simp [hs], ?_⟩
        intro hi
        rcases List.infix_cons_iff.mp hi with h2 | h2
        · apply hp
          obtain ⟨u, hu⟩ := h2
          exact ⟨u ++ (sep ++ rest), by rw [hs, ← List.append_assoc, hu]; simp⟩
        · exact ha h2

/-- Every response has no delimiter, or one delimiter between two segments
without it, or such two segments and a second delimiter after them. -/
theorem response_cases (r : Str) :
    ¬ issuesDelim <:+: r
      ∨ ∃ a b, ¬ issuesDelim <:+: a ∧ ¬ issuesDelim <:+: b
          ∧ (r = a ++ issuesDelim ++ b
              ∨ ∃ c, r = a ++ issuesDelim ++ b ++ issuesDelim ++ c) := by
  by_cases h : issuesDelim <:+: r
  · right
    obtain ⟨a, rest, hr, ha⟩ := first_occurrence _ issuesDelim_ne_nil r h
    by_cases h2 : issuesDelim <:+: rest
    · obtain ⟨b, c, hrest, hb⟩ := first_occurrence _ issuesDelim_ne_nil rest h2
      exact ⟨a, b, ha, hb, Or.inr ⟨c, by rw [hr, hrest]; simp⟩⟩
    · exact ⟨a, rest, ha, h2, Or.inl hr⟩
  · exact Or.inl h

/-- A word without the character `c` that lies in `x ++ c :: y` lies in `x` or
in `y`. -/
theorem within_of_sep (w x y : Str) (c : Char) (hc : c ∉ w)
    (h : w <:+: x ++ c :: y) : w <:+: x ∨ w <:+: y := by
  induction x with
  | nil =>
    rcases List.infix_cons_iff.mp h with hpre | hin
    · rcases List.prefix_cons_iff.mp hpre with rfl | ⟨t, rfl, _⟩
      · exact Or.inl List.nil_infix
      · exact absurd (List.mem_cons_self _ _) hc
    · exact Or.inr hin
  | cons a x ih =>
    rcases List.infix_cons_iff.mp h with hpre | hin
    · left
      have h2 : (a :: x) ++ [c] <+: a :: (x ++ c :: y) := ⟨y, by simp⟩
      rcases List.prefix_or_prefix_of_prefix hpre h2 with h3 | h3
      · rcases List.prefix_concat_iff.mp h3 with h4 | h4
        · exact absurd (by rw [h4]; simp) hc
        · exact h4.isInfix
      · exact absurd (h3.subset (by simp)) hc
    · rcases ih hin with h5 | h5
      · exact Or.inl (List.infix_cons h5)
      · exact Or.inr h5

theorem word_of_body (w : Str) (hlt : '<' ∉ w) (hgt : '>' ∉ w) (hnl : '\n' ∉ w)
    (ls : List Str) (h : w <:+: ls.flatMap (formatLine [])) :
    (∃ l ∈ ls, w <:+: TrimSpace l) ∨ w <:+: "\n<b".toList ∨ w <:+: "/b>".toList := by
  induction ls with
  | nil =>
    have : w = [] := by simpa using h
    subst this
    exact Or.inr (Or.inl List.nil_infix)
  | cons l ls ih =>
    have lift : ((∃ l ∈ ls, w <:+: TrimSpace l) ∨ w <:+: "\n<b".toList ∨ w <:+: "/b>".toList) →
        ((∃ m ∈ l :: ls, w <:+: TrimSpace m) ∨ w <:+: "\n<b".toList ∨ w <:+: "/b>".toList) := by
      rintro (⟨m, hm, hw⟩ | h2)
      · exact Or.inl ⟨m, List.mem_cons_of_mem _ hm, hw⟩
      · exact Or.inr h2
    rw [List.flatMap_cons] at h
    rcases formatLine_cases l with e | e | e
    · rw [e, List.nil_append] at h
      exact lift (ih h)
    · rw [e] at h
      have h1 : w <:+: "\n<b".toList
          ++ '>' :: (TrimSpace l ++ '<' :: ("/b>".toList ++ '\n' :: ls.flatMap (formatLine []))) := by
        simpa using h
      rcases within_of_sep _ _ _ _ hgt h1 with h2 | h2
      · exact Or.inr (Or.inl h2)
      · rcases within_of_sep _ _ _ _ hlt h2 with h3 | h3
        · exact Or.inl ⟨l, List.mem_cons_self _ _, h3⟩
        · rcases within_of_sep _ _ _ _ hnl h3 with h4 | h4
          · exact Or.inr (Or.inr h4)
          · exact lift (ih h4)
    · rw [e] at h
      have h1 : w <:+: TrimSpace l ++ '\n' :: ls.flatMap (formatLine []) := by
        simpa using h
      rcases within_of_sep _ _ _ _ hnl h1 with h2 | h2
      · exact Or.inl ⟨l, List.mem_cons_self _ _, h2⟩
      · exact lift (ih h2)

theorem word_of_improvedBlock (w : Str) (hlt : '<' ∉ w) (hgt : '>' ∉ w) (p0 tail : Str)
    (h : w <:+: "<b>✅ Improved Text:</b>\n<i".toList
          ++ '>' :: (TrimSpace (TrimPrefix p0 improvedLabel) ++ '<' :: tail)) :
    w <:+: "<b>✅ Improved Text:</b>\n<i".toList ∨ w <:+: p0 ∨ w <:+: tail := by
  rcases within_of_sep _ _ _ _ hgt h with h2 | h2
  · exact Or.inl h2
  · rcases within_of_sep _ _ _ _ hlt h2 with h3 | h3
    · exact Or.inr (Or.inl ((h3.trans (TrimSpace_within _)).trans (TrimPrefix_within _ _)))
    · exact Or.inr (Or.inr h3)

/-- A word without `<`, `>` and newline that is in the output and in none of
the fixed pieces is in the response. -/
theorem word_of_output (w r : Str) (hlt : '<' ∉ w) (hgt : '>' ∉ w) (hnl : '\n' ∉ w)
    (hfix : ∀ f ∈ fixedPieces, ¬ w <:+: f) (h : w <:+: formatResponseHTML r) : w <:+: r := by
  obtain ⟨p0, ps, hps, -⟩ := (splitGo_pieces issuesDelim r 0).2 rfl
  have hps2 : Split r issuesDelim = p0 :: ps := hps
  have hp0 : p0 <:+: r := Split_mem_within r issuesDelim p0 (by rw [hps2]; simp)
  cases ps with
  | nil =>
    rw [formatResponseHTML_of_single r p0 hps2] at h
    have h1 : w <:+: "<b>✅ Improved Text:</b>\n<i".toList
          ++ '>' :: (TrimSpace (TrimPrefix p0 improvedLabel) ++ '<' :: "/i>\n\n".toList) := by
      simpa [improvedBlock] using h
    rcases word_of_improvedBlock w hlt hgt p0 _ h1 with h2 | h2 | h2
    · exact absurd h2 (hfix _ (by simp [fixedPieces]))
    · exact h2.trans hp0
    · exact absurd h2 (hfix _ (by simp [fixedPieces]))
  | cons p1 ps =>
    have hp1 : p1 <:+: r := Split_mem_within r issuesDelim p1 (by rw [hps2]; simp)
    rw [formatResponseHTML_of_parts r p0 p1 ps hps2] at h
    have h1 : w <:+: "<b>✅ Improved Text:</b>\n<i".toList
          ++ '>' :: (TrimSpace (TrimPrefix p0 improvedLabel)
            ++ '<' :: ("/i>\n\n<b>📋 Issues Found:</b>".toList
              ++ '\n' :: (Split p1 nl).flatMap (formatLine []))) := by
      simpa [improvedBlock] using h
    rcases word_of_improvedBlock w hlt hgt p0 _ h1 with h2 | h2 | h2
    · exact absurd h2 (hfix _ (by simp [fixedPieces]))
    · exact h2.trans hp0
    · rcases within_of_sep _ _ _ _ hnl h2 with h3 | h3
      · exact absurd h3 (hfix _ (by simp [fixedPieces]))
      · rcases word_of_body w hlt hgt hnl _ h3 with ⟨l, hl, hw⟩ | h4 | h4
        · exact ((hw.trans (TrimSpace_within l)).trans (Split_mem_within p1 nl l hl)).trans hp1
        · exact absurd h4 (hfix _ (by simp [fixedPieces]))
        · exact absurd h4 (hfix _ (by simp [fixedPieces]))

theorem TrimPrefix_append (pre rest : Str) : TrimPrefix (pre ++ rest) pre = rest := by
  have h : HasPrefix (pre ++ rest) pre = true :=
    List.isPrefixOf_iff_prefix.mpr (List.prefix_append pre rest)
  simp [TrimPrefix, h]

theorem TrimSpace_append_spaces (w t : Str) (hw : ∀ c ∈ w, isSpace c = true) :
    TrimSpace (w ++ t) = TrimSpace t := by
  unfold TrimSpace
  rw [List.dropWhile_append_of_pos hw]

/-- With the label as the very first text of a response without delimiter,
the label and the white space after it are removed. -/
theorem formatResponseHTML_label_first (w t : Str) (hw : ∀ c ∈ w, isSpace c = true)
    (h : ¬ issuesDelim <:+: improvedLabel ++ (w ++ t)) :
    formatResponseHTML (improvedLabel ++ (w ++ t))
      = "<b>✅ Improved Text:</b>\n<i>".toList ++ TrimSpace t ++ "</i>\n\n".toList := by
  rw [formatResponseHTML_of_single _ _ (splitGo_of_absent _ _ h)]
  simp [improvedBlock, TrimPrefix_append, TrimSpace_append_spaces w t hw]

theorem Getenv_eq_nil (env : Env) (key : Str) : Getenv env key = [] ↔ unsetOrEmpty env key := by
  unfold Getenv unsetOrEmpty
  cases env key with
  | none => simp
  | some v => simp

theorem improveText_effects (c : Collaborators) (text : Str) :
    (improveText c text).1 = [Effect.completion (promptFor text)] := by
  simp only [improveText]
  cases c.completion (promptFor text) with
  | error err => rfl
  | ok choices =>
    simp only []
    split <;> rfl

/-! ## The claims about `formatResponseHTML` -/

/-- C1: for a response `a ++ "ISSUES FOUND:" ++ b` with no delimiter inside `a`
or `b`, the output is the improved-text block, the issues heading, and then the
lines of `b` in source order, each rendered as the specification says: nothing
for a blank line, a bold label for a category header, the trimmed line followed
by a newline for an item. -/
theorem formatResponseHTML_issues_block (a b : Str)
    (ha : ¬ issuesDelim <:+: a) (hb : ¬ issuesDelim <:+: b) :
    formatResponseHTML (a ++ issuesDelim ++ b)
      = "<b>✅ Improved Text:</b>\n".toList
          ++ ("<i>".toList ++ TrimSpace (TrimPrefix a improvedLabel) ++ "</i>\n\n".toList)
          ++ "<b>📋 Issues Found:</b>\n".toList
          ++ (Split b "\n".toList).flatMap specIssueLine := by
  rw [formatResponseHTML_of_parts _ a b [] (Split_issuesDelim_two a b ha hb)]
  have e : (Split b nl).flatMap (formatLine []) = (Split b "\n".toList).flatMap specIssueLine := by
    have : formatLine [] = specIssueLine := funext formatLine_eq_spec
    rw [this]; rfl
  rw [e]; rfl

set_option maxRecDepth 100000 in
/-- C1, at the scenario-1 completion: a bold Grammar label with its two bullet
lines, then a bold Spelling label with the line `None`. -/
theorem formatResponseHTML_issues_block_scenario1 :
    ¬ issuesDelim <:+: scenario1Improved ∧ ¬ issuesDelim <:+: scenario1Issues
      ∧ formatResponseHTML (scenario1Improved ++ issuesDelim ++ scenario1Issues)
          = scenario1Output :=
  ⟨by decide, by decide,
    (formatResponseHTML_issues_block scenario1Improved scenario1Issues
      (by decide) (by decide)).trans (by decide)⟩

/-- C2: a non-empty response without the delimiter is rendered as the
improved-text block alone: the heading, then the response without its label,
trimmed, in italics; no issues heading, label or item follows. -/
theorem formatResponseHTML_no_delimiter (r : Str) (_hne : r ≠ [])
    (h : ¬ issuesDelim <:+: r) :
    formatResponseHTML r
      = "<b>✅ Improved Text:</b>\n<i>".toList ++ TrimSpace (TrimPrefix r improvedLabel)
          ++ "</i>\n\n".toList := by
  rw [formatResponseHTML_of_single r r (splitGo_of_absent _ r h)]
  simp [improvedBlock]

set_option maxRecDepth 100000 in
/-- C2, at the response `IMPROVED TEXT:\nHello.`. -/
theorem formatResponseHTML_no_delimiter_hello :
    formatResponseHTML "IMPROVED TEXT:\nHello.".toList
      = "<b>✅ Improved Text:</b>\n<i>Hello.</i>\n\n".toList :=
  (formatResponseHTML_no_delimiter "IMPROVED TEXT:\nHello.".toList (by decide) (by decide)).trans
    (by decide)

set_option maxRecDepth 100000 in
/-- C3 fails: the `<` and the `&` of the improved text and of the item reach
the output as they are, and the output has a `<` that opens no fixed tag. -/
theorem formatResponseHTML_not_escaped :
    formatResponseHTML reservedResponse
        = "<b>✅ Improved Text:</b>\n<i>If a < b, stop.</i>\n\n<b>📋 Issues Found:</b>\n\n<b>Grammar:</b>\n- write a < b & c\n".toList
      ∧ anglesAreTags (formatResponseHTML reservedResponse) = false := by
  decide

/-- C3 as the code has it: nothing is escaped.  The improved text, trimmed,
stands between `<i>` and `</i>` character for character, and every non-blank
line of the issues block stands in the output, trimmed, character for
character; a `<`, `>` or `&` in them is copied to the output. -/
theorem formatResponseHTML_verbatim (a b : Str)
    (ha : ¬ issuesDelim <:+: a) (hb : ¬ issuesDelim <:+: b) :
    ("<i>".toList ++ TrimSpace (TrimPrefix a improvedLabel) ++ "</i>".toList
        <:+: formatResponseHTML (a ++ issuesDelim ++ b))
      ∧ ∀ line ∈ Split b "\n".toList, TrimSpace line ≠ [] →
          TrimSpace line <:+: formatResponseHTML (a ++ issuesDelim ++ b) := by
  rw [formatResponseHTML_of_parts _ a b [] (Split_issuesDelim_two a b ha hb)]
  constructor
  · refine ⟨"<b>✅ Improved Text:</b>\n".toList,
      "\n\n".toList ++ "<b>📋 Issues Found:</b>\n".toList ++ (Split b nl).flatMap (formatLine []), ?_⟩
    simp [improvedBlock]
  · intro line hl hne
    have h1 : formatLine [] line <:+: (Split b nl).flatMap (formatLine []) :=
      List.infix_of_mem_flatten (List.mem_map_of_mem _ hl)
    exact ((TrimSpace_within_formatLine line hne).trans h1).trans
      (List.suffix_append _ _).isInfix

set_option maxRecDepth 100000 in
/-- C3 as the code has it, at a response with `<` and `&` in the item. -/
theorem formatResponseHTML_verbatim_reserved :
    "- write a < b & c".toList
      <:+: formatResponseHTML ("IMPROVED TEXT:\nIf a < b, stop.\n\n".toList ++ issuesDelim
            ++ "\nGrammar:\n- write a < b & c".toList) :=
  (formatResponseHTML_verbatim "IMPROVED TEXT:\nIf a < b, stop.\n\n".toList
    "\nGrammar:\n- write a < b & c".toList (by decide) (by decide)).2
      "- write a < b & c".toList (by decide) (by decide)

set_option maxRecDepth 100000 in
/-- C4 fails: with Spelling before Grammar in the response, the output has
Spelling before Grammar, not the canonical order. -/
theorem formatResponseHTML_not_canonical :
    formatResponseHTML permutedResponse
        = "<b>✅ Improved Text:</b>\n<i>ok</i>\n\n<b>📋 Issues Found:</b>\n\n<b>Spelling:</b>\n- s1\n\n<b>Grammar:</b>\n- g1\n- g2\n\n<b>Punctuation:</b>\nNone\n\n<b>Style:</b>\n- t1\n\n<b>Semantics:</b>\n- m1\n".toList
      ∧ formatResponseHTML permutedResponse
        ≠ "<b>✅ Improved Text:</b>\n<i>ok</i>\n\n<b>📋 Issues Found:</b>\n\n<b>Grammar:</b>\n- g1\n- g2\n\n<b>Spelling:</b>\n- s1\n\n<b>Punctuation:</b>\nNone\n\n<b>Style:</b>\n- t1\n\n<b>Semantics:</b>\n- m1\n".toList := by
  decide

/-- C4 as the code has it: when the content lines of the issues block (its
lines, trimmed, without the blank ones) are the header and the items of the
categories `cs`, one category after the other, the output has the categories
in the order of the response, each bold label followed by its own items. -/
theorem formatResponseHTML_source_order (a b : Str) (cs : List Category)
    (ha : ¬ issuesDelim <:+: a) (hb : ¬ issuesDelim <:+: b)
    (hlines : contentLines b = cs.flatMap Category.lines)
    (hcs : ∀ c ∈ cs, c.wellFormed) :
    formatResponseHTML (a ++ issuesDelim ++ b)
      = "<b>✅ Improved Text:</b>\n".toList
          ++ ("<i>".toList ++ TrimSpace (TrimPrefix a improvedLabel) ++ "</i>\n\n".toList)
          ++ "<b>📋 Issues Found:</b>\n".toList
          ++ cs.flatMap renderCategory := by
  rw [formatResponseHTML_of_parts _ a b [] (Split_issuesDelim_two a b ha hb),
    formatLine_contentLines, hlines, renderContentLine_categories cs hcs]
  rfl

set_option maxRecDepth 100000 in
/-- C4 as the code has it, at the response with Spelling first and at the
scenario-1 completion. -/
theorem formatResponseHTML_source_order_permuted :
    ("IMPROVED TEXT:\nok\n\n".toList ++ issuesDelim ++ permutedIssues = permutedResponse
      ∧ formatResponseHTML ("IMPROVED TEXT:\nok\n\n".toList ++ issuesDelim ++ permutedIssues)
        = "<b>✅ Improved Text:</b>\n<i>ok</i>\n\n<b>📋 Issues Found:</b>\n\n<b>Spelling:</b>\n- s1\n\n<b>Grammar:</b>\n- g1\n- g2\n\n<b>Punctuation:</b>\nNone\n\n<b>Style:</b>\n- t1\n\n<b>Semantics:</b>\n- m1\n".toList)
      ∧ formatResponseHTML (scenario1Improved ++ issuesDelim ++ scenario1Issues)
        = scenario1Output :=
  ⟨⟨by decide,
    (formatResponseHTML_source_order "IMPROVED TEXT:\nok\n\n".toList permutedIssues
      permutedCategories (by decide) (by decide) (by decide) (by decide)).trans (by decide)⟩,
    (formatResponseHTML_source_order scenario1Improved scenario1Issues scenario1Categories
      (by decide) (by decide) (by decide) (by decide)).trans (by decide)⟩

set_option maxRecDepth 100000 in
/-- C5 fails: for a response with the Grammar category only, the output has
no Spelling section and no `None` entry. -/
theorem formatResponseHTML_no_synthesis :
    formatResponseHTML sparseResponse
        = "<b>✅ Improved Text:</b>\n<i>ok</i>\n\n<b>📋 Issues Found:</b>\n\n<b>Grammar:</b>\n- x\n".toList
      ∧ ¬ "Spelling".toList <:+: formatResponseHTML sparseResponse
      ∧ ¬ noneSentinel <:+: formatResponseHTML sparseResponse := by
  decide

/-- C5 as the code has it: no category and no sentinel is added.  A response
without the delimiter gives the improved-text block alone.  A response with
the segments `a` and `b` around its first delimiter gives the improved-text
block, the issues heading and then one entry for each content line of `b`, in
order: a bold label for a header, the line itself for an item, and nothing
else.  The name of a recognized category, or `None`, is in the output only
when it is in the response.  These cases cover every response. -/
theorem formatResponseHTML_no_added_section (r : Str) :
    (¬ issuesDelim <:+: r →
        formatResponseHTML r
          = "<b>✅ Improved Text:</b>\n<i>".toList ++ TrimSpace (TrimPrefix r improvedLabel)
              ++ "</i>\n\n".toList)
      ∧ (∀ a b, ¬ issuesDelim <:+: a → ¬ issuesDelim <:+: b →
          (r = a ++ issuesDelim ++ b ∨ ∃ c, r = a ++ issuesDelim ++ b ++ issuesDelim ++ c) →
          formatResponseHTML r
            = "<b>✅ Improved Text:</b>\n<i>".toList ++ TrimSpace (TrimPrefix a improvedLabel)
                ++ "</i>\n\n".toList ++ "<b>📋 Issues Found:</b>\n".toList
                ++ (contentLines b).flatMap renderContentLine)
      ∧ (∀ w ∈ categoryNames ++ [noneSentinel], w <:+: formatResponseHTML r → w <:+: r)
      ∧ (¬ issuesDelim <:+: r
          ∨ ∃ a b, ¬ issuesDelim <:+: a ∧ ¬ issuesDelim <:+: b
              ∧ (r = a ++ issuesDelim ++ b
                  ∨ ∃ c, r = a ++ issuesDelim ++ b ++ issuesDelim ++ c)) := by
  refine ⟨?_, ?_, ?_, response_cases r⟩
  · intro h
    rw [formatResponseHTML_of_single r r (splitGo_of_absent _ r h)]
    simp [improvedBlock]
  · intro a b ha hb hr
    have hparts : ∃ rest, Split r issuesDelim = a :: b :: rest := by
      rcases hr with rfl | ⟨c, rfl⟩
      · exact ⟨[], Split_issuesDelim_two a b ha hb⟩
      · exact ⟨_, Split_issuesDelim_three a b c ha hb⟩
    obtain ⟨rest, hrest⟩ := hparts
    rw [formatResponseHTML_of_parts r a b rest hrest, formatLine_contentLines]
    simp [improvedBlock]
  · intro w hw h
    have key : ∀ v ∈ categoryNames ++ [noneSentinel],
        '<' ∉ v ∧ '>' ∉ v ∧ '\n' ∉ v ∧ ∀ f ∈ fixedPieces, ¬ v <:+: f := by decide
    obtain ⟨h1, h2, h3, h4⟩ := key w hw
    exact word_of_output w r h1 h2 h3 h4 h

set_option maxRecDepth 100000 in
/-- C5 as the code has it, at a response in the layout of the prompt with the
Style category only: the output has the Style section and no other. -/
theorem formatResponseHTML_no_added_section_style :
    formatResponseHTML styleOnlyResponse
      = "<b>✅ Improved Text:</b>\n<i>ok</i>\n\n<b>📋 Issues Found:</b>\n\n<b>Style:</b>\n- wordy\n".toList :=
  ((formatResponseHTML_no_added_section styleOnlyResponse).2.1
    "IMPROVED TEXT:\nok\n\n".toList "\n\nStyle:\n  - wordy\n".toList
    (by decide) (by decide) (Or.inl (by decide))).trans (by decide)

set_option maxRecDepth 100000 in
/-- C9: with a newline before the label the label is not removed: `TrimPrefix`
runs before `TrimSpace`, so the label stays in the italic text. -/
theorem formatResponseHTML_label_after_newline :
    formatResponseHTML ("\n".toList ++ improvedLabel ++ "\n".toList ++ "Hello".toList)
      = "<b>✅ Improved Text:</b>\n<i>IMPROVED TEXT:\nHello</i>\n\n".toList := by
  decide

/-- C10: what follows a second delimiter is dropped: only the first two pieces
of the split are rendered. -/
theorem formatResponseHTML_second_delimiter (a b c : Str)
    (ha : ¬ issuesDelim <:+: a) (hb : ¬ issuesDelim <:+: b) :
    formatResponseHTML (a ++ issuesDelim ++ b ++ issuesDelim ++ c)
      = formatResponseHTML (a ++ issuesDelim ++ b) := by
  rw [formatResponseHTML_of_parts _ a b _ (Split_issuesDelim_three a b c ha hb),
    formatResponseHTML_of_parts _ a b [] (Split_issuesDelim_two a b ha hb)]

set_option maxRecDepth 100000 in
/-- C10, at `xISSUES FOUND:- yISSUES FOUND:- z`: the item `- z` is lost. -/
theorem formatResponseHTML_second_delimiter_xyz :
    formatResponseHTML ("x".toList ++ issuesDelim ++ "- y".toList ++ issuesDelim ++ "- z".toList)
      = "<b>✅ Improved Text:</b>\n<i>x</i>\n\n<b>📋 Issues Found:</b>\n- y\n".toList :=
  (formatResponseHTML_second_delimiter "x".toList "- y".toList "- z".toList
    (by decide) (by decide)).trans (by decide)

/-! ## The claims about `handleMessage` and `loadConfig` -/

/-- C6: a message whose text is empty or begins with `/` is ignored: the
handler has no effect at all (no typing indicator, no prompt and completion
call, no reply, no log line) and returns `nil`. -/
theorem handleMessage_filtered (cfg : Config) (c : Collaborators) (msg : Message)
    (h : msg.text = [] ∨ HasPrefix msg.text "/".toList = true) :
    handleMessage cfg c msg = ([], none) := by
  unfold handleMessage
  rcases h with h | h
  · rw [if_pos h]
  · by_cases h0 : msg.text = []
    · rw [if_pos h0]
    · rw [if_neg h0]; simp only [h, if_true]

/-- C6, at the command `/start` with collaborators that would all succeed. -/
theorem handleMessage_filtered_start :
    handleMessage ⟨[], [], []⟩ ⟨fun _ _ => none, fun _ => .ok ["x".toList], fun _ _ => none⟩
        ⟨"/start".toList, 7⟩ = ([], none) :=
  handleMessage_filtered _ _ ⟨"/start".toList, 7⟩ (Or.inr (by decide))

/-- C7: for a message that is not filtered, when `improveText` fails (the
completion call returns an error, or no choice) the handler returns that
error, and its calls are, whatever the typing-indicator send and the apology
send return: the typing indicator, the completion call, and one reply with the
fixed apology and no parse mode. -/
theorem handleMessage_completion_failure (cfg : Config) (c : Collaborators) (msg : Message)
    (e : Err) (hne : msg.text ≠ []) (hcmd : HasPrefix msg.text "/".toList = false)
    (hfail : (improveText c msg.text).2 = .error e) :
    (handleMessage cfg c msg).2 = some e
      ∧ (handleMessage cfg c msg).1.filter isCall
          = [Effect.sendChatAction msg.chatId "typing".toList,
             Effect.completion (promptFor msg.text),
             Effect.reply "❌ Sorry, I encountered an error processing your message.".toList none] := by
  have heff := improveText_effects c msg.text
  rcases hi : improveText c msg.text with ⟨eff, res⟩
  rw [hi] at hfail heff
  simp only at hfail heff
  subst hfail heff
  unfold handleMessage
  rw [if_neg hne]
  simp only [hcmd, hi]
  cases c.sendChatAction msg.chatId "typing".toList <;> cases c.reply apology none <;>
    simp [isCall, apology]

/-- C7, at the message `hi` when the typing indicator, the completion call and
the apology all fail. -/
theorem handleMessage_completion_failure_all_fail :
    (handleMessage ⟨[], [], []⟩ failingCollaborators ⟨"hi".toList, 7⟩).2
        = some "failed to call OpenAI API: timeout".toList
      ∧ (handleMessage ⟨[], [], []⟩ failingCollaborators ⟨"hi".toList, 7⟩).1.filter isCall
          = [Effect.sendChatAction 7 "typing".toList,
             Effect.completion (promptFor "hi".toList),
             Effect.reply "❌ Sorry, I encountered an error processing your message.".toList none] :=
  handleMessage_completion_failure ⟨[], [], []⟩ failingCollaborators ⟨"hi".toList, 7⟩
    "failed to call OpenAI API: timeout".toList (by decide) (by decide) rfl

/-- C8: `loadConfig` fails exactly when the API key or the bot key is unset or
empty; otherwise the configuration holds the two keys and the bot name, which
is `English Improver Bot` when `WARP_DEMO_BOT_NAME` is unset or empty. -/
theorem loadConfig_spec (env : Env) :
    ((∃ e, loadConfig env = .error e)
        ↔ (unsetOrEmpty env "WARP_DEMO_OPENAI_API_KEY".toList
            ∨ unsetOrEmpty env "WARP_DEMO_BOT_KEY".toList))
      ∧ (¬ (unsetOrEmpty env "WARP_DEMO_OPENAI_API_KEY".toList
            ∨ unsetOrEmpty env "WARP_DEMO_BOT_KEY".toList) →
          loadConfig env = .ok
            { OpenAIAPIKey := Getenv env "WARP_DEMO_OPENAI_API_KEY".toList
              BotToken := Getenv env "WARP_DEMO_BOT_KEY".toList
              BotName :=
                if unsetOrEmpty env "WARP_DEMO_BOT_NAME".toList then "English Improver Bot".toList
                else Getenv env "WARP_DEMO_BOT_NAME".toList }) := by
  rw [← Getenv_eq_nil, ← Getenv_eq_nil]
  by_cases h1 : Getenv env "WARP_DEMO_OPENAI_API_KEY".toList = []
  · constructor
    · refine ⟨fun _ => Or.inl h1, fun _ =>
        ⟨"WARP_DEMO_OPENAI_API_KEY environment variable is not set".toList, ?_⟩⟩
      rw [loadConfig]; simp only [h1, if_true]
    · intro h; exact absurd (Or.inl h1) h
  · by_cases h2 : Getenv env "WARP_DEMO_BOT_KEY".toList = []
    · constructor
      · refine ⟨fun _ => Or.inr h2, fun _ =>
          ⟨"WARP_DEMO_BOT_KEY environment variable is not set".toList, ?_⟩⟩
        rw [loadConfig]; simp only [h1, h2, if_true, if_false]
      · intro h; exact absurd (Or.inr h2) h
    · have e : loadConfig env = .ok
          { OpenAIAPIKey := Getenv env "WARP_DEMO_OPENAI_API_KEY".toList
            BotToken := Getenv env "WARP_DEMO_BOT_KEY".toList
            BotName :=
              if unsetOrEmpty env "WARP_DEMO_BOT_NAME".toList then "English Improver Bot".toList
              else Getenv env "WARP_DEMO_BOT_NAME".toList } := by
        rw [loadConfig]
        simp only [h1, h2, if_false, Getenv_eq_nil]
      constructor
      · constructor
        · rintro ⟨e2, he2⟩
          rw [e] at he2
          cases he2
        · rintro (h | h)
          · exact absurd h h1
          · exact absurd h h2
      · intro _; exact e

end WarpDemo
